import Mathlib

/-
Verification of the Kinaxis case-study crawler (src/main.py).

The crawler is a depth-bounded recursive traversal with a visited set:
`crawl_page(url, depth)` rejects calls with `depth > 3` or an already
visited url, otherwise marks the url visited, fetches it, harvests a
case-study record when both a title and a content were extracted, and
recurses on the same-origin links of the page with `depth + 1`.

The embedding below models the network as a deterministic oracle
`World.fetch : String → Option Page`: `none` is a transport error
(`requests.get` raising), `some page` a successful response, where
`Page` carries the data the source actually reads from the parsed
markup: the text of the first `h1` element (if any), the text of the
first `article` element (if any), and the ordered list of `href`
attribute values of the anchors (`soup.find_all("a", href=True)`).
Every `requests.get` call is logged in `fetch_log`, and every admitted
crawl (the `print(f"Crawling: ...")` of line 49) in `crawl_log`, so
that counting claims about fetches and visits can be stated.

Machine-level caveats: Python strings are modelled as Lean `String`,
`str.startswith` as prefix of the character lists, `str.strip` as
`py_strip` below, and `urllib.parse.urljoin` by `urljoin` below, which
reproduces the CPython 3.11 behaviour on the reference shapes used in
this development (absolute http/https references, root-relative and
bare relative references against a base with empty path, and
whitespace-only references, which CPython strips to the empty
reference and hence resolves to the base itself).
-/

/-- A harvested case study: the dict `{"url": ..., "title": ..., "content": ...}`
appended to `self.case_studies` in `crawl_page` (main.py lines 60-62). -/
structure CaseStudyRecord where
  url : String
  title : String
  content : String
deriving DecidableEq, Repr

/-- What the crawler reads out of a successfully fetched and parsed page:
the text of the first `h1` (if present), the text of the first `article`
(if present), and the `href` values of all anchors, in document order. -/
structure Page where
  h1 : Option String
  article : Option String
  hrefs : List String
deriving DecidableEq, Repr

/-- The network, as a deterministic oracle: `fetch url = none` models
`requests.get(url)` raising a transport error, `some page` a response
whose parse yields `page`. -/
structure World where
  fetch : String → Option Page

/-- Python `str.strip()` on the character list: drop whitespace from both ends. -/
def py_strip (s : String) : String :=
  ⟨((s.data.dropWhile Char.isWhitespace).reverse.dropWhile Char.isWhitespace).reverse⟩

/-- Python `s.startswith(p)`: `p` is a prefix of `s`, as character lists. -/
def startswith (s p : String) : Bool :=
  p.data.isPrefixOf s.data

/-- Does the reference carry its own scheme (the absolute-URL case of `urljoin`)? -/
def has_scheme (u : String) : Bool :=
  startswith u "http://" || startswith u "https://"

/-- Model of `urllib.parse.urljoin(base, url)` for a base of the shape
`scheme://host` (empty path), as used by the crawler (`self.base_url`).
CPython (3.11) first strips leading/trailing whitespace from the
reference; an empty reference resolves to the base itself; an absolute
reference replaces the base; otherwise the reference is joined onto the
(empty) base path. -/
def urljoin (base url : String) : String :=
  let u := py_strip url
  if u = "" then base
  else if has_scheme u then u
  else if startswith u "/" then base ++ u
  else base ++ "/" ++ u

/-- The mutable state of a `KinaxisCrawler` instance, plus two event logs:
`fetch_log` records every `requests.get` call issued (main.py lines 25 and
52) and `crawl_log` every admitted crawl (line 49), newest last. -/
structure KinaxisCrawler where
  base_url : String
  visited_urls : List String
  case_studies : List CaseStudyRecord
  fetch_log : List String
  crawl_log : List String
deriving DecidableEq, Repr

/-- The state built by `KinaxisCrawler.__init__`. -/
def KinaxisCrawler.init : KinaxisCrawler :=
  { base_url := "https://www.kinaxis.com"
    visited_urls := []
    case_studies := []
    fetch_log := []
    crawl_log := [] }

/-- The link filter loop of `get_links` (main.py lines 29-37): resolve each
href against the base, keep those that start with the base and are not yet
visited, in document order. -/
def valid_links (base : String) (visited : List String) (hrefs : List String) : List String :=
  (hrefs.map (fun href => urljoin base href)).filter
    (fun fu => startswith fu base && !(visited.contains fu))

/-- The `get_links` method (main.py lines 23-42). It issues its own
`requests.get(url)` (logged), and on any exception returns the empty list;
otherwise it returns the filtered resolved links of the page. It never
touches `visited_urls` or `case_studies`. -/
def get_links (w : World) (s : KinaxisCrawler) (url : String) :
    List String × KinaxisCrawler :=
  let s1 := { s with fetch_log := s.fetch_log ++ [url] }
  match w.fetch url with
  | none => ([], s1)
  | some page => (valid_links s.base_url s.visited_urls page.hrefs, s1)

/-- Title extraction of main.py line 56: the stripped text of the first
`h1` if present, else the empty string. -/
def page_title (page : Page) : String :=
  match page.h1 with
  | some t => py_strip t
  | none => ""

/-- Content extraction of main.py line 57: the stripped text of the first
`article` if present, else the empty string. -/
def page_content (page : Page) : String :=
  match page.article with
  | some t => py_strip t
  | none => ""

/-- The state changes of an admitted `crawl_page` call up to and including
issuing the fetch (main.py lines 48-52): insert the url into the visited
set, log the crawl, log the fetch call. -/
def visit_mark (s : KinaxisCrawler) (url : String) : KinaxisCrawler :=
  { s with visited_urls := url :: s.visited_urls
           crawl_log := s.crawl_log ++ [url]
           fetch_log := s.fetch_log ++ [url] }

/-- The record harvest of main.py lines 56-62: append a `CaseStudyRecord`
exactly when both the extracted title and content are non-empty. -/
def harvest (s : KinaxisCrawler) (url : String) (page : Page) : KinaxisCrawler :=
  if (page_title page != "") && (page_content page != "") then
    { s with case_studies :=
        s.case_studies ++ [{ url := url, title := page_title page, content := page_content page }] }
  else s

/-- Sequential traversal of a list of discovered links with a state-passing
step: the `for link in links: self.crawl_page(link, depth + 1)` loop of
main.py lines 66-68 (the `time.sleep(1)` has no state effect). -/
def crawlList (step : KinaxisCrawler → String → KinaxisCrawler) :
    KinaxisCrawler → List String → KinaxisCrawler
  | s, [] => s
  | s, l :: ls => crawlList step (step s l) ls

/-- Fuelled form of `crawl_page` (main.py lines 44-71). The fuel only pays
for nested admitted recursion, which the `depth > 3` guard bounds; any fuel
of at least `4 - depth` computes the semantics (proved below). Per admitted
call: guard, mark visited and log, fetch; on transport error stop (the
`except` of line 70); on success harvest, call `get_links` (which issues a
second fetch of the same url), and recurse on each returned link at
`depth + 1`. -/
def crawlPageF (w : World) : Nat → KinaxisCrawler → String → Nat → KinaxisCrawler
  | 0, s, _, _ => s
  | fuel + 1, s, url, depth =>
    if depth > 3 ∨ url ∈ s.visited_urls then s
    else
      let s1 := visit_mark s url
      match w.fetch url with
      | none => s1
      | some page =>
        let r := get_links w (harvest s1 url page) url
        crawlList (fun acc link => crawlPageF w fuel acc link (depth + 1)) r.2 r.1

/-- The `crawl_page` method: the fuel `5 - depth` strictly dominates the
number of admitted recursion levels left below `depth`, so this is the
exact semantics of the Python recursion (fuel irrelevance is proved below). -/
def crawl_page (w : World) (s : KinaxisCrawler) (url : String) (depth : Nat := 0) :
    KinaxisCrawler :=
  crawlPageF w (5 - depth) s url depth

/-- The seed URL of `main()` (main.py line 90). -/
def seed_url : String := "https://www.kinaxis.com/en/customers"

/-- A network on which every fetch raises a transport error. -/
def w_err : World := { fetch := fun _ => none }

/-- A network with a single live page at the seed URL: no heading, no
article, no links. -/
def w_single : World :=
  { fetch := fun u =>
      if u = seed_url then some { h1 := none, article := none, hrefs := [] }
      else none }

/-- The scenario of the link-extraction test: a page whose anchors point to
a same-origin URL, a foreign URL, and a whitespace-only href. -/
def w_c2 : World :=
  { fetch := fun u =>
      if u = "https://example.com/page" then
        some { h1 := none, article := none,
               hrefs := ["https://example.com/a", "https://other.com/b", "   "] }
      else none }

/-- A crawler instance over the origin `https://example.com`. -/
def s_example : KinaxisCrawler :=
  { base_url := "https://example.com", visited_urls := [], case_studies := [],
    fetch_log := [], crawl_log := [] }

/-- The duplicate-link scenario: the root page links to `/a` twice and `/b`
once (as absolute same-origin URLs); `/a` and `/b` are empty leaf pages. -/
def w_c7 : World :=
  { fetch := fun u =>
      if u = "https://www.kinaxis.com" then
        some { h1 := none, article := none,
               hrefs := ["https://www.kinaxis.com/a", "https://www.kinaxis.com/a",
                         "https://www.kinaxis.com/b"] }
      else if u = "https://www.kinaxis.com/a" then
        some { h1 := none, article := none, hrefs := [] }
      else if u = "https://www.kinaxis.com/b" then
        some { h1 := none, article := none, hrefs := [] }
      else none }

/-- A page carrying a full case study. -/
def page_acme : Page :=
  { h1 := some "Acme Corp Success"
    article := some "Acme reduced lead time by 30%."
    hrefs := [] }

/-- A network with the single case-study page at `/case/acme`. -/
def w_acme : World :=
  { fetch := fun u =>
      if u = "https://example.com/case/acme" then some page_acme else none }

/-! Field and unfolding lemmas. -/

theorem visit_mark_visited (s : KinaxisCrawler) (u : String) :
    (visit_mark s u).visited_urls = u :: s.visited_urls := rfl

theorem visit_mark_base (s : KinaxisCrawler) (u : String) :
    (visit_mark s u).base_url = s.base_url := rfl

theorem visit_mark_records (s : KinaxisCrawler) (u : String) :
    (visit_mark s u).case_studies = s.case_studies := rfl

theorem visit_mark_fetch_log (s : KinaxisCrawler) (u : String) :
    (visit_mark s u).fetch_log = s.fetch_log ++ [u] := rfl

theorem visit_mark_crawl_log (s : KinaxisCrawler) (u : String) :
    (visit_mark s u).crawl_log = s.crawl_log ++ [u] := rfl

theorem harvest_visited (s : KinaxisCrawler) (u : String) (p : Page) :
    (harvest s u p).visited_urls = s.visited_urls := by
  unfold harvest; split <;> rfl

theorem harvest_base (s : KinaxisCrawler) (u : String) (p : Page) :
    (harvest s u p).base_url = s.base_url := by
  unfold harvest; split <;> rfl

theorem harvest_fetch_log (s : KinaxisCrawler) (u : String) (p : Page) :
    (harvest s u p).fetch_log = s.fetch_log := by
  unfold harvest; split <;> rfl

theorem harvest_crawl_log (s : KinaxisCrawler) (u : String) (p : Page) :
    (harvest s u p).crawl_log = s.crawl_log := by
  unfold harvest; split <;> rfl

theorem harvest_records (s : KinaxisCrawler) (u : String) (p : Page) :
    (harvest s u p).case_studies = s.case_studies ++
      (if (page_title p != "") && (page_content p != "") then
        [{ url := u, title := page_title p, content := page_content p }]
      else []) := by
  unfold harvest; split <;> simp_all

theorem get_links_state (w : World) (s : KinaxisCrawler) (u : String) :
    (get_links w s u).2 = { s with fetch_log := s.fetch_log ++ [u] } := by
  unfold get_links; cases w.fetch u <;> rfl

theorem get_links_links_err {w : World} {u : String} (s : KinaxisCrawler)
    (hf : w.fetch u = none) : (get_links w s u).1 = [] := by
  simp [get_links, hf]

theorem get_links_links_ok {w : World} {u : String} {page : Page} (s : KinaxisCrawler)
    (hf : w.fetch u = some page) :
    (get_links w s u).1 = valid_links s.base_url s.visited_urls page.hrefs := by
  simp [get_links, hf]

theorem mem_valid_links {base : String} {visited hrefs : List String} {l : String}
    (h : l ∈ valid_links base visited hrefs) :
    startswith l base = true ∧ l ∉ visited := by
  unfold valid_links at h
  rw [List.mem_filter] at h
  obtain ⟨-, h2⟩ := h
  rw [Bool.and_eq_true] at h2
  refine ⟨h2.1, ?_⟩
  have h3 := h2.2
  simp only [List.contains, List.elem_eq_mem, Bool.not_eq_eq_eq_not, Bool.not_true,
    decide_eq_false_iff_not] at h3
  exact h3

theorem crawlPageF_noop (w : World) (s : KinaxisCrawler) (u : String) (d : Nat)
    (h : d > 3 ∨ u ∈ s.visited_urls) : ∀ f, crawlPageF w f s u d = s := by
  intro f
  cases f with
  | zero => rfl
  | succ n => simp only [crawlPageF]; rw [if_pos h]

theorem crawlPageF_err (w : World) (f : Nat) (s : KinaxisCrawler) (u : String) (d : Nat)
    (h : ¬(d > 3 ∨ u ∈ s.visited_urls)) (hf : w.fetch u = none) :
    crawlPageF w (f + 1) s u d = visit_mark s u := by
  simp only [crawlPageF, if_neg h, hf]

theorem crawlPageF_ok (w : World) (f : Nat) (s : KinaxisCrawler) (u : String) (d : Nat)
    (page : Page) (h : ¬(d > 3 ∨ u ∈ s.visited_urls)) (hf : w.fetch u = some page) :
    crawlPageF w (f + 1) s u d =
      crawlList (fun acc link => crawlPageF w f acc link (d + 1))
        (get_links w (harvest (visit_mark s u) u page) u).2
        (get_links w (harvest (visit_mark s u) u page) u).1 := by
  simp only [crawlPageF, if_neg h, hf]

/-! Traversal-loop lemmas. -/

theorem crawlList_congr {step₁ step₂ : KinaxisCrawler → String → KinaxisCrawler} :
    ∀ (ls : List String) (s : KinaxisCrawler),
      (∀ b l, l ∈ ls → step₁ b l = step₂ b l) →
      crawlList step₁ s ls = crawlList step₂ s ls := by
  intro ls
  induction ls with
  | nil => intro s _; rfl
  | cons l ls ih =>
      intro s h
      simp only [crawlList]
      rw [h s l (by simp)]
      exact ih _ (fun b l' hl' => h b l' (by simp [hl']))

theorem crawlList_chain (step : KinaxisCrawler → String → KinaxisCrawler)
    (R : KinaxisCrawler → KinaxisCrawler → Prop)
    (htr : ∀ a b c, R a b → R b c → R a c) (s₀ : KinaxisCrawler) :
    ∀ (ls : List String) (acc : KinaxisCrawler), R s₀ acc →
      (∀ b l, l ∈ ls → R s₀ b → R b (step b l)) →
      R s₀ (crawlList step acc ls) := by
  intro ls
  induction ls with
  | nil => intro acc h _; exact h
  | cons l ls ih =>
      intro acc h hstep
      simp only [crawlList]
      exact ih (step acc l) (htr _ _ _ h (hstep acc l (by simp) h))
        (fun b l' hl' hb => hstep b l' (by simp [hl']) hb)

/-! State invariants of the traversal, by induction on the fuel. -/

theorem crawlPageF_visited_mono (w : World) :
    ∀ (f : Nat) (s : KinaxisCrawler) (u : String) (d : Nat) (v : String),
      v ∈ s.visited_urls → v ∈ (crawlPageF w f s u d).visited_urls := by
  intro f
  induction f with
  | zero => intro s u d v hv; exact hv
  | succ n ih =>
      intro s u d v hv
      by_cases h : d > 3 ∨ u ∈ s.visited_urls
      · rw [crawlPageF_noop w s u d h]; exact hv
      · cases hf : w.fetch u with
        | none => rw [crawlPageF_err w n s u d h hf, visit_mark_visited]; exact List.mem_cons_of_mem _ hv
        | some page =>
            rw [crawlPageF_ok w n s u d page h hf]
            refine crawlList_chain _ (fun a b => ∀ x, x ∈ a.visited_urls → x ∈ b.visited_urls)
              (fun a b c hab hbc x hx => hbc x (hab x hx)) _ _ _ (fun x hx => hx)
              (fun b l _ _ x hx => ih b l (d + 1) x hx) v ?_
            rw [get_links_state]
            show v ∈ (harvest (visit_mark s u) u page).visited_urls
            rw [harvest_visited, visit_mark_visited]
            exact List.mem_cons_of_mem _ hv

theorem crawlPageF_base (w : World) :
    ∀ (f : Nat) (s : KinaxisCrawler) (u : String) (d : Nat),
      (crawlPageF w f s u d).base_url = s.base_url := by
  intro f
  induction f with
  | zero => intro s u d; rfl
  | succ n ih =>
      intro s u d
      by_cases h : d > 3 ∨ u ∈ s.visited_urls
      · rw [crawlPageF_noop w s u d h]
      · cases hf : w.fetch u with
        | none => rw [crawlPageF_err w n s u d h hf, visit_mark_base]
        | some page =>
            rw [crawlPageF_ok w n s u d page h hf]
            have := crawlList_chain (fun acc link => crawlPageF w n acc link (d + 1))
              (fun a b => b.base_url = a.base_url)
              (fun a b c hab hbc => hbc.trans hab) _
              (get_links w (harvest (visit_mark s u) u page) u).1
              (get_links w (harvest (visit_mark s u) u page) u).2 rfl
              (fun b l _ _ => ih b l (d + 1))
            rw [this, get_links_state]
            show (harvest (visit_mark s u) u page).base_url = s.base_url
            rw [harvest_base, visit_mark_base]

theorem crawlPageF_fetch_log_mono (w : World) :
    ∀ (f : Nat) (s : KinaxisCrawler) (u : String) (d : Nat) (x : String),
      x ∈ s.fetch_log → x ∈ (crawlPageF w f s u d).fetch_log := by
  intro f
  induction f with
  | zero => intro s u d x hx; exact hx
  | succ n ih =>
      intro s u d x hx
      by_cases h : d > 3 ∨ u ∈ s.visited_urls
      · rw [crawlPageF_noop w s u d h]; exact hx
      · cases hf : w.fetch u with
        | none =>
            rw [crawlPageF_err w n s u d h hf, visit_mark_fetch_log]
            exact List.mem_append_left _ hx
        | some page =>
            rw [crawlPageF_ok w n s u d page h hf]
            refine crawlList_chain _ (fun a b => ∀ y, y ∈ a.fetch_log → y ∈ b.fetch_log)
              (fun a b c hab hbc y hy => hbc y (hab y hy)) _ _ _ (fun y hy => hy)
              (fun b l _ _ y hy => ih b l (d + 1) y hy) x ?_
            rw [get_links_state]
            show x ∈ (harvest (visit_mark s u) u page).fetch_log ++ [u]
            rw [harvest_fetch_log, visit_mark_fetch_log]
            exact List.mem_append_left _ (List.mem_append_left _ hx)

theorem crawlList_visited_mono (w : World) (n d : Nat) :
    ∀ (ls : List String) (acc : KinaxisCrawler) (v : String), v ∈ acc.visited_urls →
      v ∈ (crawlList (fun a l => crawlPageF w n a l d) acc ls).visited_urls := by
  intro ls acc v hv
  exact crawlList_chain _ (fun a b => ∀ x, x ∈ a.visited_urls → x ∈ b.visited_urls)
    (fun a b c hab hbc x hx => hbc x (hab x hx)) acc ls acc (fun x hx => hx)
    (fun b l _ _ x hx => crawlPageF_visited_mono w n b l d x hx) v hv

theorem crawlPageF_visits (w : World) (f : Nat) (s : KinaxisCrawler) (u : String) (d : Nat)
    (hd : d ≤ 3) : u ∈ (crawlPageF w (f + 1) s u d).visited_urls := by
  by_cases h : d > 3 ∨ u ∈ s.visited_urls
  · rcases h with h1 | h2
    · omega
    · rw [crawlPageF_noop w s u d (Or.inr h2)]; exact h2
  · cases hf : w.fetch u with
    | none =>
        rw [crawlPageF_err w f s u d h hf, visit_mark_visited]
        exact List.mem_cons_self _ _
    | some page =>
        rw [crawlPageF_ok w f s u d page h hf]
        apply crawlList_visited_mono
        rw [get_links_state]
        show u ∈ (harvest (visit_mark s u) u page).visited_urls
        rw [harvest_visited, visit_mark_visited]
        exact List.mem_cons_self _ _

theorem crawlList_visits (w : World) (n d : Nat) (hn : 1 ≤ n) (hd : d ≤ 3) :
    ∀ (ls : List String) (acc : KinaxisCrawler) (l : String), l ∈ ls →
      l ∈ (crawlList (fun a x => crawlPageF w n a x d) acc ls).visited_urls := by
  obtain ⟨m, rfl⟩ : ∃ m, n = m + 1 := ⟨n - 1, by omega⟩
  intro ls
  induction ls with
  | nil => intro acc l hl; cases hl
  | cons x ls ih =>
      intro acc l hl
      simp only [crawlList]
      rcases List.mem_cons.mp hl with rfl | hl'
      · exact crawlList_visited_mono w (m + 1) d ls _ l (crawlPageF_visits w m acc l d hd)
      · exact ih _ l hl'

theorem crawlPageF_visited_new (w : World) :
    ∀ (f : Nat) (s : KinaxisCrawler) (u : String) (d : Nat) (x : String),
      x ∈ (crawlPageF w f s u d).visited_urls →
      x ∈ s.visited_urls ∨ x = u ∨ startswith x s.base_url = true := by
  intro f
  induction f with
  | zero => intro s u d x hx; exact Or.inl hx
  | succ n ih =>
      intro s u d x hx
      by_cases h : d > 3 ∨ u ∈ s.visited_urls
      · rw [crawlPageF_noop w s u d h] at hx; exact Or.inl hx
      · cases hf : w.fetch u with
        | none =>
            rw [crawlPageF_err w n s u d h hf, visit_mark_visited] at hx
            rcases List.mem_cons.mp hx with rfl | hx'
            · exact Or.inr (Or.inl rfl)
            · exact Or.inl hx'
        | some page =>
            rw [crawlPageF_ok w n s u d page h hf] at hx
            set mid := (get_links w (harvest (visit_mark s u) u page) u).2 with hmid_def
            have hmidb : mid.base_url = s.base_url := by
              rw [hmid_def, get_links_state]
              show (harvest (visit_mark s u) u page).base_url = s.base_url
              rw [harvest_base, visit_mark_base]
            have hmidv : mid.visited_urls = u :: s.visited_urls := by
              rw [hmid_def, get_links_state]
              show (harvest (visit_mark s u) u page).visited_urls = _
              rw [harvest_visited, visit_mark_visited]
            have hlinks : ∀ l, l ∈ (get_links w (harvest (visit_mark s u) u page) u).1 →
                startswith l s.base_url = true := by
              intro l hl
              rw [get_links_links_ok _ hf, harvest_base, visit_mark_base] at hl
              exact (mem_valid_links hl).1
            have hchain := crawlList_chain
              (fun acc link => crawlPageF w n acc link (d + 1))
              (fun a b => b.base_url = a.base_url ∧
                ∀ y, y ∈ b.visited_urls →
                  y ∈ a.visited_urls ∨ startswith y a.base_url = true)
              (fun a b c hab hbc =>
                ⟨hbc.1.trans hab.1, fun y hy => by
                  rcases hbc.2 y hy with h1 | h1
                  · exact hab.2 y h1
                  · rw [hab.1] at h1; exact Or.inr h1⟩)
              mid (get_links w (harvest (visit_mark s u) u page) u).1 mid
              ⟨rfl, fun y hy => Or.inl hy⟩
              (fun b l hl hb =>
                ⟨crawlPageF_base w n b l (d + 1), fun y hy => by
                  rcases ih b l (d + 1) y hy with h1 | h1 | h1
                  · exact Or.inl h1
                  · subst h1
                    right
                    rw [hb.1, hmidb]
                    exact hlinks y hl
                  · exact Or.inr h1⟩)
            rcases hchain.2 x hx with hxm | hxm
            · rw [hmidv] at hxm
              rcases List.mem_cons.mp hxm with rfl | hx'
              · exact Or.inr (Or.inl rfl)
              · exact Or.inl hx'
            · rw [hmidb] at hxm
              exact Or.inr (Or.inr hxm)

theorem crawlPageF_records_frozen (w : World) :
    ∀ (f : Nat) (s : KinaxisCrawler) (u : String) (d : Nat) (v : String),
      v ∈ s.visited_urls →
      (crawlPageF w f s u d).case_studies.countP (fun r => r.url == v)
        = s.case_studies.countP (fun r => r.url == v) := by
  intro f
  induction f with
  | zero => intro s u d v _; rfl
  | succ n ih =>
      intro s u d v hv
      by_cases h : d > 3 ∨ u ∈ s.visited_urls
      · rw [crawlPageF_noop w s u d h]
      · cases hf : w.fetch u with
        | none => rw [crawlPageF_err w n s u d h hf, visit_mark_records]
        | some page =>
            rw [crawlPageF_ok w n s u d page h hf]
            set mid := (get_links w (harvest (visit_mark s u) u page) u).2 with hmid_def
            have hne : u ≠ v := fun he => h (Or.inr (he ▸ hv))
            have hmidv : mid.visited_urls = u :: s.visited_urls := by
              rw [hmid_def, get_links_state]
              show (harvest (visit_mark s u) u page).visited_urls = _
              rw [harvest_visited, visit_mark_visited]
            have hmidr : mid.case_studies.countP (fun r => r.url == v)
                = s.case_studies.countP (fun r => r.url == v) := by
              rw [hmid_def, get_links_state]
              show (harvest (visit_mark s u) u page).case_studies.countP _ = _
              rw [harvest_records, visit_mark_records, List.countP_append]
              have : List.countP (fun r : CaseStudyRecord => r.url == v)
                  (if (page_title page != "") && (page_content page != "") then
                    [{ url := u, title := page_title page, content := page_content page }]
                  else []) = 0 := by
                split
                · simp [List.countP_cons, beq_eq_false_iff_ne, hne]
                · rfl
              rw [this, Nat.add_zero]
            have hchain := crawlList_chain
              (fun acc link => crawlPageF w n acc link (d + 1))
              (fun a b => (∀ y, y ∈ a.visited_urls → y ∈ b.visited_urls) ∧
                (v ∈ a.visited_urls →
                  b.case_studies.countP (fun r => r.url == v)
                    = a.case_studies.countP (fun r => r.url == v)))
              (fun a b c hab hbc =>
                ⟨fun y hy => hbc.1 y (hab.1 y hy),
                 fun hva => (hbc.2 (hab.1 v hva)).trans (hab.2 hva)⟩)
              mid (get_links w (harvest (visit_mark s u) u page) u).1 mid
              ⟨fun y hy => hy, fun _ => rfl⟩
              (fun b l _ _ =>
                ⟨fun y hy => crawlPageF_visited_mono w n b l (d + 1) y hy,
                 fun hvb => ih b l (d + 1) v hvb⟩)
            rw [hchain.2 (by rw [hmidv]; exact List.mem_cons_of_mem _ hv), hmidr]

theorem crawlList_records_frozen (w : World) (n d : Nat) (v : String) :
    ∀ (ls : List String) (acc : KinaxisCrawler), v ∈ acc.visited_urls →
      (crawlList (fun a l => crawlPageF w n a l d) acc ls).case_studies.countP
          (fun r => r.url == v)
        = acc.case_studies.countP (fun r => r.url == v) := by
  intro ls acc hv
  have hchain := crawlList_chain (fun a l => crawlPageF w n a l d)
    (fun a b => (∀ y, y ∈ a.visited_urls → y ∈ b.visited_urls) ∧
      (v ∈ a.visited_urls →
        b.case_studies.countP (fun r => r.url == v)
          = a.case_studies.countP (fun r => r.url == v)))
    (fun a b c hab hbc =>
      ⟨fun y hy => hbc.1 y (hab.1 y hy),
       fun hva => (hbc.2 (hab.1 v hva)).trans (hab.2 hva)⟩)
    acc ls acc ⟨fun y hy => hy, fun _ => rfl⟩
    (fun b l _ _ =>
      ⟨fun y hy => crawlPageF_visited_mono w n b l d y hy,
       fun hvb => crawlPageF_records_frozen w n b l d v hvb⟩)
  exact hchain.2 hv

theorem crawlPageF_fetched_sub (w : World) :
    ∀ (f : Nat) (s : KinaxisCrawler) (u : String) (d : Nat) (x : String),
      x ∈ (crawlPageF w f s u d).fetch_log →
      x ∈ s.fetch_log ∨ x ∈ (crawlPageF w f s u d).visited_urls := by
  intro f
  induction f with
  | zero => intro s u d x hx; exact Or.inl hx
  | succ n ih =>
      intro s u d x hx
      by_cases h : d > 3 ∨ u ∈ s.visited_urls
      · rw [crawlPageF_noop w s u d h] at hx ⊢; exact Or.inl hx
      · cases hf : w.fetch u with
        | none =>
            rw [crawlPageF_err w n s u d h hf] at hx ⊢
            rw [visit_mark_fetch_log] at hx
            rcases List.mem_append.mp hx with hx' | hx'
            · exact Or.inl hx'
            · rw [List.mem_singleton] at hx'
              subst hx'
              rw [visit_mark_visited]
              exact Or.inr (List.mem_cons_self _ _)
        | some page =>
            rw [crawlPageF_ok w n s u d page h hf] at hx ⊢
            set mid := (get_links w (harvest (visit_mark s u) u page) u).2 with hmid_def
            have hmidv : mid.visited_urls = u :: s.visited_urls := by
              rw [hmid_def, get_links_state]
              show (harvest (visit_mark s u) u page).visited_urls = _
              rw [harvest_visited, visit_mark_visited]
            have hmidf : mid.fetch_log = (s.fetch_log ++ [u]) ++ [u] := by
              rw [hmid_def, get_links_state]
              show (harvest (visit_mark s u) u page).fetch_log ++ [u] = _
              rw [harvest_fetch_log, visit_mark_fetch_log]
            have hchain := crawlList_chain
              (fun acc link => crawlPageF w n acc link (d + 1))
              (fun a b => (∀ y, y ∈ a.visited_urls → y ∈ b.visited_urls) ∧
                (∀ y, y ∈ b.fetch_log → y ∈ a.fetch_log ∨ y ∈ b.visited_urls))
              (fun a b c hab hbc =>
                ⟨fun y hy => hbc.1 y (hab.1 y hy),
                 fun y hy => by
                  rcases hbc.2 y hy with h1 | h1
                  · rcases hab.2 y h1 with h2 | h2
                    · exact Or.inl h2
                    · exact Or.inr (hbc.1 y h2)
                  · exact Or.inr h1⟩)
              mid (get_links w (harvest (visit_mark s u) u page) u).1 mid
              ⟨fun y hy => hy, fun y hy => Or.inl hy⟩
              (fun b l _ _ =>
                ⟨fun y hy => crawlPageF_visited_mono w n b l (d + 1) y hy,
                 fun y hy => ih b l (d + 1) y hy⟩)
            rcases hchain.2 x hx with hxm | hxm
            · rw [hmidf] at hxm
              rcases List.mem_append.mp hxm with hx' | hx'
              · rcases List.mem_append.mp hx' with hx'' | hx''
                · exact Or.inl hx''
                · rw [List.mem_singleton] at hx''
                  subst hx''
                  exact Or.inr (hchain.1 x (by rw [hmidv]; exact List.mem_cons_self _ _))
              · rw [List.mem_singleton] at hx'
                subst hx'
                exact Or.inr (hchain.1 x (by rw [hmidv]; exact List.mem_cons_self _ _))
            · exact Or.inr hxm

theorem crawlPageF_visited_sub_fetched (w : World) :
    ∀ (f : Nat) (s : KinaxisCrawler) (u : String) (d : Nat) (x : String),
      x ∈ (crawlPageF w f s u d).visited_urls →
      x ∈ s.visited_urls ∨ x ∈ (crawlPageF w f s u d).fetch_log := by
  intro f
  induction f with
  | zero => intro s u d x hx; exact Or.inl hx
  | succ n ih =>
      intro s u d x hx
      by_cases h : d > 3 ∨ u ∈ s.visited_urls
      · rw [crawlPageF_noop w s u d h] at hx ⊢; exact Or.inl hx
      · cases hf : w.fetch u with
        | none =>
            rw [crawlPageF_err w n s u d h hf] at hx ⊢
            rw [visit_mark_visited] at hx
            rcases List.mem_cons.mp hx with rfl | hx'
            · rw [visit_mark_fetch_log]
              exact Or.inr (List.mem_append_right _ (List.mem_singleton_self _))
            · exact Or.inl hx'
        | some page =>
            rw [crawlPageF_ok w n s u d page h hf] at hx ⊢
            set mid := (get_links w (harvest (visit_mark s u) u page) u).2 with hmid_def
            have hmidv : mid.visited_urls = u :: s.visited_urls := by
              rw [hmid_def, get_links_state]
              show (harvest (visit_mark s u) u page).visited_urls = _
              rw [harvest_visited, visit_mark_visited]
            have hmidf : mid.fetch_log = (s.fetch_log ++ [u]) ++ [u] := by
              rw [hmid_def, get_links_state]
              show (harvest (visit_mark s u) u page).fetch_log ++ [u] = _
              rw [harvest_fetch_log, visit_mark_fetch_log]
            have hchain := crawlList_chain
              (fun acc link => crawlPageF w n acc link (d + 1))
              (fun a b => (∀ y, y ∈ a.fetch_log → y ∈ b.fetch_log) ∧
                (∀ y, y ∈ b.visited_urls → y ∈ a.visited_urls ∨ y ∈ b.fetch_log))
              (fun a b c hab hbc =>
                ⟨fun y hy => hbc.1 y (hab.1 y hy),
                 fun y hy => by
                  rcases hbc.2 y hy with h1 | h1
                  · rcases hab.2 y h1 with h2 | h2
                    · exact Or.inl h2
                    · exact Or.inr (hbc.1 y h2)
                  · exact Or.inr h1⟩)
              mid (get_links w (harvest (visit_mark s u) u page) u).1 mid
              ⟨fun y hy => hy, fun y hy => Or.inl hy⟩
              (fun b l _ _ =>
                ⟨fun y hy => crawlPageF_fetch_log_mono w n b l (d + 1) y hy,
                 fun y hy => ih b l (d + 1) y hy⟩)
            rcases hchain.2 x hx with hxm | hxm
            · rw [hmidv] at hxm
              rcases List.mem_cons.mp hxm with rfl | hx'
              · refine Or.inr (hchain.1 x ?_)
                rw [hmidf]
                exact List.mem_append_right _ (List.mem_singleton_self _)
              · exact Or.inl hx'
            · exact Or.inr hxm

theorem crawlPageF_visited_nodup (w : World) :
    ∀ (f : Nat) (s : KinaxisCrawler) (u : String) (d : Nat),
      s.visited_urls.Nodup → (crawlPageF w f s u d).visited_urls.Nodup := by
  intro f
  induction f with
  | zero => intro s u d hnd; exact hnd
  | succ n ih =>
      intro s u d hnd
      by_cases h : d > 3 ∨ u ∈ s.visited_urls
      · rw [crawlPageF_noop w s u d h]; exact hnd
      · have hu : u ∉ s.visited_urls := fun hmem => h (Or.inr hmem)
        cases hf : w.fetch u with
        | none =>
            rw [crawlPageF_err w n s u d h hf, visit_mark_visited]
            exact List.nodup_cons.mpr ⟨hu, hnd⟩
        | some page =>
            rw [crawlPageF_ok w n s u d page h hf]
            set mid := (get_links w (harvest (visit_mark s u) u page) u).2 with hmid_def
            have hmidv : mid.visited_urls = u :: s.visited_urls := by
              rw [hmid_def, get_links_state]
              show (harvest (visit_mark s u) u page).visited_urls = _
              rw [harvest_visited, visit_mark_visited]
            have hchain := crawlList_chain
              (fun acc link => crawlPageF w n acc link (d + 1))
              (fun a b => a.visited_urls.Nodup → b.visited_urls.Nodup)
              (fun a b c hab hbc ha => hbc (hab ha))
              mid (get_links w (harvest (visit_mark s u) u page) u).1 mid
              (fun hy => hy)
              (fun b l _ _ hb => ih b l (d + 1) hb)
            exact hchain (by rw [hmidv]; exact List.nodup_cons.mpr ⟨hu, hnd⟩)

theorem crawlPageF_stable (w : World) :
    ∀ (f g : Nat) (s : KinaxisCrawler) (u : String) (d : Nat),
      4 - d ≤ f → 4 - d ≤ g → crawlPageF w f s u d = crawlPageF w g s u d := by
  intro f
  induction f with
  | zero =>
      intro g s u d hf hg
      have hd : d > 3 := by omega
      rw [crawlPageF_noop w s u d (Or.inl hd) 0, crawlPageF_noop w s u d (Or.inl hd) g]
  | succ n ih =>
      intro g s u d hf hg
      by_cases h : d > 3 ∨ u ∈ s.visited_urls
      · rw [crawlPageF_noop w s u d h, crawlPageF_noop w s u d h]
      · have hd3 : ¬ d > 3 := fun hh => h (Or.inl hh)
        cases g with
        | zero => omega
        | succ m =>
            cases hfe : w.fetch u with
            | none => rw [crawlPageF_err w n s u d h hfe, crawlPageF_err w m s u d h hfe]
            | some page =>
                rw [crawlPageF_ok w n s u d page h hfe, crawlPageF_ok w m s u d page h hfe]
                apply crawlList_congr
                intro b l _
                exact ih m b l (d + 1) (by omega) (by omega)

/-! Claim theorems. -/

/-- C3: for every call `crawl_page(url, depth)` with `depth > 3`, and for
every call whose url is already in the visited set, the call is a no-op
checked before any network access: the state — visited set, record
sequence, and both event logs (so zero fetches) — is returned unchanged. -/
theorem crawl_page_noop (w : World) (s : KinaxisCrawler) (url : String) (depth : Nat)
    (h : depth > 3 ∨ url ∈ s.visited_urls) :
    crawl_page w s url depth = s :=
  crawlPageF_noop w s url depth h (5 - depth)

/-- Witness for C3 at a concrete input: depth 4 exceeds the maximum, so the
call returns the initial state unchanged. -/
theorem crawl_page_noop_witness :
    (4 > 3 ∨ "https://www.kinaxis.com/x" ∈ KinaxisCrawler.init.visited_urls)
    ∧ crawl_page w_err KinaxisCrawler.init "https://www.kinaxis.com/x" 4 = KinaxisCrawler.init :=
  ⟨Or.inl (by decide),
   crawl_page_noop w_err KinaxisCrawler.init "https://www.kinaxis.com/x" 4 (Or.inl (by decide))⟩

/-- C4: on an admitted call whose fetch raises a transport error, the error
is swallowed (`except` of main.py line 70): the resulting state is exactly
the marked-visited-and-logged state, so no record is appended, no links are
followed, and nothing propagates; with an empty initial record sequence the
records stay empty (the seed scenario). Traversal of siblings and ancestors
is unaffected because the call returns normally with this state. -/
theorem crawl_page_transport_error (w : World) (s : KinaxisCrawler) (url : String)
    (depth : Nat) (hd : depth ≤ 3) (hv : url ∉ s.visited_urls) (hf : w.fetch url = none) :
    crawl_page w s url depth = visit_mark s url
    ∧ (crawl_page w s url depth).case_studies = s.case_studies
    ∧ (s.case_studies = [] → (crawl_page w s url depth).case_studies = []) := by
  have h : ¬(depth > 3 ∨ url ∈ s.visited_urls) := by
    intro hor
    rcases hor with h1 | h2
    · omega
    · exact hv h2
  have h5 : 5 - depth = (4 - depth) + 1 := by omega
  have he : crawl_page w s url depth = visit_mark s url := by
    show crawlPageF w (5 - depth) s url depth = visit_mark s url
    rw [h5]
    exact crawlPageF_err w (4 - depth) s url depth h hf
  exact ⟨he, by rw [he, visit_mark_records],
    fun hcs => by rw [he, visit_mark_records, hcs]⟩

/-- Witness for C4: the seed crawl on an all-failing network marks the seed
visited, logs one fetch, and leaves the record sequence empty. -/
theorem crawl_page_transport_error_witness :
    (0 ≤ 3) ∧ (seed_url ∉ KinaxisCrawler.init.visited_urls)
    ∧ w_err.fetch seed_url = none
    ∧ (crawl_page w_err KinaxisCrawler.init seed_url 0 = visit_mark KinaxisCrawler.init seed_url
      ∧ (crawl_page w_err KinaxisCrawler.init seed_url 0).case_studies
          = KinaxisCrawler.init.case_studies
      ∧ (KinaxisCrawler.init.case_studies = [] →
          (crawl_page w_err KinaxisCrawler.init seed_url 0).case_studies = [])) :=
  ⟨by decide, by decide, rfl,
   crawl_page_transport_error w_err KinaxisCrawler.init seed_url 0 (by decide) (by decide) rfl⟩

/-- C5: in every admitted call the url is inserted into the visited set
before the fetch is attempted, with no assumption on the network, so the
url is in the visited set of the resulting state even if its fetch fails;
the visited set only grows; and a later call on a visited url (a page
linking back to itself or to a page in flight) is a no-op. -/
theorem crawl_page_marks_visited_first (w : World) (s : KinaxisCrawler) (url : String)
    (depth : Nat) (hd : depth ≤ 3) :
    url ∈ (crawl_page w s url depth).visited_urls
    ∧ (∀ v, v ∈ s.visited_urls → v ∈ (crawl_page w s url depth).visited_urls)
    ∧ (url ∈ s.visited_urls → crawl_page w s url depth = s) := by
  have h5 : 5 - depth = (4 - depth) + 1 := by omega
  refine ⟨?_, fun v hv => crawlPageF_visited_mono w (5 - depth) s url depth v hv,
    fun hv => crawlPageF_noop w s url depth (Or.inr hv) (5 - depth)⟩
  show url ∈ (crawlPageF w (5 - depth) s url depth).visited_urls
  rw [h5]
  exact crawlPageF_visits w (4 - depth) s url depth hd

/-- Witness for C5 on a network whose fetch fails: the seed is in the
visited set of the result even though its fetch raised. -/
theorem crawl_page_marks_visited_first_witness :
    (0 ≤ 3)
    ∧ (seed_url ∈ (crawl_page w_err KinaxisCrawler.init seed_url 0).visited_urls
      ∧ (∀ v, v ∈ KinaxisCrawler.init.visited_urls →
          v ∈ (crawl_page w_err KinaxisCrawler.init seed_url 0).visited_urls)
      ∧ (seed_url ∈ KinaxisCrawler.init.visited_urls →
          crawl_page w_err KinaxisCrawler.init seed_url 0 = KinaxisCrawler.init)) :=
  ⟨by decide, crawl_page_marks_visited_first w_err KinaxisCrawler.init seed_url 0 (by decide)⟩

/-- C8: the traversal terminates regardless of link-graph size, because the
depth parameter grows by exactly 1 per recursive hop and the `depth > 3`
guard bounds the nesting: any fuel of at least `4 - depth` computes the
same result as `crawl_page`, i.e. the recursion never needs more than the
fixed depth budget. -/
theorem crawl_page_fuel_irrelevant (w : World) (s : KinaxisCrawler) (url : String)
    (depth f : Nat) (h : 4 - depth ≤ f) :
    crawlPageF w f s url depth = crawl_page w s url depth :=
  crawlPageF_stable w f (5 - depth) s url depth h (by omega)

/-- Witness for C8: fuel 10 computes the same seed crawl as `crawl_page`. -/
theorem crawl_page_fuel_irrelevant_witness :
    (4 - 0 ≤ 10)
    ∧ crawlPageF w_single 10 KinaxisCrawler.init seed_url 0
        = crawl_page w_single KinaxisCrawler.init seed_url 0 :=
  ⟨by decide, crawl_page_fuel_irrelevant w_single KinaxisCrawler.init seed_url 0 10 (by decide)⟩

/-- C9: in a run started from an empty visited set, every url ever inserted
into the visited set is the seed itself or has the crawler's base origin as
a string prefix, because `get_links` only passes origin-prefixed resolved
links and only the seed bypasses that filter. -/
theorem crawl_page_visited_origin_only (w : World) (s : KinaxisCrawler) (seed : String)
    (h0 : s.visited_urls = []) :
    ∀ v ∈ (crawl_page w s seed 0).visited_urls,
      v = seed ∨ startswith v s.base_url = true := by
  intro v hv
  rcases crawlPageF_visited_new w (5 - 0) s seed 0 v hv with h | h | h
  · rw [h0] at h; cases h
  · exact Or.inl h
  · exact Or.inr h

/-- Witness for C9 on the duplicate-link network: every visited url of the
run is the seed or starts with the base origin. -/
theorem crawl_page_visited_origin_only_witness :
    (KinaxisCrawler.init.visited_urls = [])
    ∧ (∀ v ∈ (crawl_page w_c7 KinaxisCrawler.init "https://www.kinaxis.com" 0).visited_urls,
        v = "https://www.kinaxis.com" ∨ startswith v KinaxisCrawler.init.base_url = true) :=
  ⟨rfl, crawl_page_visited_origin_only w_c7 KinaxisCrawler.init "https://www.kinaxis.com" rfl⟩

/-- C10: `get_links` is total (its body catches every exception): it never
changes the visited set or the record sequence, and when the fetch raises a
transport error it returns the empty link list. -/
theorem get_links_never_raises (w : World) (s : KinaxisCrawler) (url : String) :
    (get_links w s url).2.visited_urls = s.visited_urls
    ∧ (get_links w s url).2.case_studies = s.case_studies
    ∧ (w.fetch url = none → (get_links w s url).1 = []) := by
  refine ⟨?_, ?_, fun hf => get_links_links_err s hf⟩
  · rw [get_links_state]
  · rw [get_links_state]

/-- Witness for C10 on an all-failing network: the link list is empty and
the state frame holds. -/
theorem get_links_never_raises_witness :
    ((get_links w_err KinaxisCrawler.init seed_url).2.visited_urls
        = KinaxisCrawler.init.visited_urls)
    ∧ ((get_links w_err KinaxisCrawler.init seed_url).2.case_studies
        = KinaxisCrawler.init.case_studies)
    ∧ (w_err.fetch seed_url = none → (get_links w_err KinaxisCrawler.init seed_url).1 = []) :=
  get_links_never_raises w_err KinaxisCrawler.init seed_url

/-- C1 fails on the code as stated: on a network with a single live, empty
page at the seed, the run issues two fetch calls for the one visited url,
because `crawl_page` fetches the page (line 52) and `get_links` then
fetches the same url again (line 25). So the number of fetch calls issued
differs from the size of the visited set. -/
theorem crawl_fetch_count_cex :
    ¬((crawl_page w_single KinaxisCrawler.init seed_url 0).fetch_log.length
        = (crawl_page w_single KinaxisCrawler.init seed_url 0).visited_urls.length) := by
  decide

/-- C1 amended: in a run from a fresh state, the set of DISTINCT urls
fetched equals the visited set exactly (no url is ever admitted to
crawling twice), the visited set is duplicate-free, and hence the number
of distinct fetched urls equals the size of the visited set; only the
per-url call count exceeds it (one crawl fetch plus one `get_links`
fetch per successful page). -/
theorem crawl_distinct_fetches_eq_visited (w : World) (s : KinaxisCrawler) (url : String)
    (h0 : s.visited_urls = []) (h1 : s.fetch_log = []) :
    (∀ x, x ∈ (crawl_page w s url 0).fetch_log ↔ x ∈ (crawl_page w s url 0).visited_urls)
    ∧ (crawl_page w s url 0).visited_urls.Nodup
    ∧ (crawl_page w s url 0).fetch_log.toFinset.card
        = (crawl_page w s url 0).visited_urls.length := by
  have hiff : ∀ x, x ∈ (crawl_page w s url 0).fetch_log ↔
      x ∈ (crawl_page w s url 0).visited_urls := by
    intro x
    constructor
    · intro hx
      rcases crawlPageF_fetched_sub w (5 - 0) s url 0 x hx with h | h
      · rw [h1] at h; cases h
      · exact h
    · intro hx
      rcases crawlPageF_visited_sub_fetched w (5 - 0) s url 0 x hx with h | h
      · rw [h0] at h; cases h
      · exact h
  have hnd : (crawl_page w s url 0).visited_urls.Nodup :=
    crawlPageF_visited_nodup w (5 - 0) s url 0 (by rw [h0]; exact List.nodup_nil)
  refine ⟨hiff, hnd, ?_⟩
  have hset : (crawl_page w s url 0).fetch_log.toFinset
      = (crawl_page w s url 0).visited_urls.toFinset := by
    ext x
    simp only [List.mem_toFinset]
    exact hiff x
  rw [hset]
  exact List.toFinset_card_of_nodup hnd

/-- Witness for the amended C1 on the single-page network. -/
theorem crawl_distinct_fetches_eq_visited_witness :
    (KinaxisCrawler.init.visited_urls = []) ∧ (KinaxisCrawler.init.fetch_log = [])
    ∧ ((∀ x, x ∈ (crawl_page w_single KinaxisCrawler.init seed_url 0).fetch_log ↔
          x ∈ (crawl_page w_single KinaxisCrawler.init seed_url 0).visited_urls)
      ∧ (crawl_page w_single KinaxisCrawler.init seed_url 0).visited_urls.Nodup
      ∧ (crawl_page w_single KinaxisCrawler.init seed_url 0).fetch_log.toFinset.card
          = (crawl_page w_single KinaxisCrawler.init seed_url 0).visited_urls.length) :=
  ⟨rfl, rfl, crawl_distinct_fetches_eq_visited w_single KinaxisCrawler.init seed_url rfl rfl⟩

/-- C2 fails on the code as stated: with origin `https://example.com`, a
document linking to `https://example.com/a`, `https://other.com/b` and a
whitespace-only href, and an empty visited set, link extraction does NOT
return only `https://example.com/a` — the whitespace href is not skipped. -/
theorem get_links_malformed_href_cex :
    ¬((get_links w_c2 s_example "https://example.com/page").1 = ["https://example.com/a"]) := by
  decide

/-- C2 amended: in that scenario link extraction returns exactly
`[https://example.com/a, https://example.com]`: `urljoin` strips the
whitespace href to the empty reference, which resolves to the origin
itself, and that resolved url starts with the origin prefix and is not in
the visited set, so the filter keeps it. The general rule — the resolved
absolute urls that start with the origin prefix and are unvisited, in
first-seen document order — is what the code implements; only the
"malformed hrefs are skipped" part is false. -/
theorem get_links_malformed_href_amended :
    (get_links w_c2 s_example "https://example.com/page").1
      = ["https://example.com/a", "https://example.com"]
    ∧ urljoin "https://example.com" "   " = "https://example.com"
    ∧ startswith (urljoin "https://example.com" "   ") "https://example.com" = true := by
  refine ⟨by decide, by decide, by decide⟩

/-- C7: for a page whose markup links to A twice and B once, none of them
previously visited, the recursive expansion visits A exactly once and B
exactly once: link extraction returns the duplicate occurrence of A (the
list is `[A, A, B]`), and the run's crawl log is `[seed, A, B]` — the
second occurrence's recursive call is a no-op because the first occurrence
already marked A visited. -/
theorem crawl_page_duplicate_link_once :
    (get_links w_c7 { KinaxisCrawler.init with visited_urls := ["https://www.kinaxis.com"] }
        "https://www.kinaxis.com").1
      = ["https://www.kinaxis.com/a", "https://www.kinaxis.com/a", "https://www.kinaxis.com/b"]
    ∧ (crawl_page w_c7 KinaxisCrawler.init "https://www.kinaxis.com" 0).crawl_log
      = ["https://www.kinaxis.com", "https://www.kinaxis.com/a", "https://www.kinaxis.com/b"]
    ∧ (crawl_page w_c7 KinaxisCrawler.init "https://www.kinaxis.com" 0).crawl_log.count
        "https://www.kinaxis.com/a" = 1
    ∧ (crawl_page w_c7 KinaxisCrawler.init "https://www.kinaxis.com" 0).crawl_log.count
        "https://www.kinaxis.com/b" = 1 := by
  refine ⟨by decide, by decide, by decide, by decide⟩

/-- C6: on an admitted call whose fetch succeeds, a record for the page is
appended if and only if both the extracted title and content are non-empty
(the count of records carrying this url grows by exactly 1 when both are
non-empty and by 0 otherwise), and the page's outbound links are still
discovered and followed either way: at an admissible child depth every
extracted link ends up in the visited set of the result. -/
theorem crawl_page_record_iff (w : World) (s : KinaxisCrawler) (url : String)
    (depth : Nat) (page : Page) (hd : depth ≤ 3) (hv : url ∉ s.visited_urls)
    (hf : w.fetch url = some page) :
    (crawl_page w s url depth).case_studies.countP (fun r => r.url == url)
      = s.case_studies.countP (fun r => r.url == url)
        + (if (page_title page != "") && (page_content page != "") then 1 else 0)
    ∧ (depth + 1 ≤ 3 →
        ∀ l ∈ valid_links s.base_url (url :: s.visited_urls) page.hrefs,
          l ∈ (crawl_page w s url depth).visited_urls) := by
  have h : ¬(depth > 3 ∨ url ∈ s.visited_urls) := by
    intro hor
    rcases hor with h1 | h2
    · omega
    · exact hv h2
  have h5 : 5 - depth = (4 - depth) + 1 := by omega
  have hrw : crawl_page w s url depth =
      crawlList (fun acc link => crawlPageF w (4 - depth) acc link (depth + 1))
        (get_links w (harvest (visit_mark s url) url page) url).2
        (get_links w (harvest (visit_mark s url) url page) url).1 := by
    show crawlPageF w (5 - depth) s url depth = _
    rw [h5]
    exact crawlPageF_ok w (4 - depth) s url depth page h hf
  set mid := (get_links w (harvest (visit_mark s url) url page) url).2 with hmid_def
  have hmidv : mid.visited_urls = url :: s.visited_urls := by
    rw [hmid_def, get_links_state]
    show (harvest (visit_mark s url) url page).visited_urls = _
    rw [harvest_visited, visit_mark_visited]
  constructor
  · rw [hrw]
    have hfrozen := crawlList_records_frozen w (4 - depth) (depth + 1) url
      (get_links w (harvest (visit_mark s url) url page) url).1 mid
      (by rw [hmidv]; exact List.mem_cons_self _ _)
    rw [hfrozen]
    rw [hmid_def, get_links_state]
    show (harvest (visit_mark s url) url page).case_studies.countP _ = _
    rw [harvest_records, visit_mark_records, List.countP_append]
    congr 1
    split
    · simp [List.countP_cons]
    · rfl
  · intro hd2 l hl
    rw [hrw]
    refine crawlList_visits w (4 - depth) (depth + 1) (by omega) hd2 _ _ l ?_
    rw [get_links_links_ok _ hf, harvest_base, visit_mark_base, harvest_visited,
      visit_mark_visited]
    exact hl

/-- Witness for C6: the Acme case-study page yields exactly one record for
its url, and its (empty) link list is trivially followed. -/
theorem crawl_page_record_iff_witness :
    (0 ≤ 3) ∧ ("https://example.com/case/acme" ∉ s_example.visited_urls)
    ∧ w_acme.fetch "https://example.com/case/acme" = some page_acme
    ∧ ((crawl_page w_acme s_example "https://example.com/case/acme" 0).case_studies.countP
          (fun r => r.url == "https://example.com/case/acme")
        = s_example.case_studies.countP (fun r => r.url == "https://example.com/case/acme")
          + (if (page_title page_acme != "") && (page_content page_acme != "") then 1 else 0)
      ∧ (0 + 1 ≤ 3 →
          ∀ l ∈ valid_links s_example.base_url
              ("https://example.com/case/acme" :: s_example.visited_urls) page_acme.hrefs,
            l ∈ (crawl_page w_acme s_example "https://example.com/case/acme" 0).visited_urls)) :=
  ⟨by decide, by decide, rfl,
   crawl_page_record_iff w_acme s_example "https://example.com/case/acme" 0 page_acme
     (by decide) (by decide) rfl⟩
